import Mathlib

/-!
Verification of the streaming core of the chrome-gemini side-panel chat client.

The development shallowly embeds the SSE line reader and event decoder
(`src/backends/base.js`), the two backend request builders and response
mappers (`src/backends/gemini.js`, `src/backends/openai.js`) and the
conversation manager (`src/chat.js`, class `ChatManager`), and proves the
specification's claims about them.

Modelling conventions:
* JavaScript strings are modelled as Lean `String` where only whole-string
  operations occur, and as `List Char` where the proofs need structural
  induction (the SSE line reader).  `TextDecoder` byte decoding is modelled
  as the identity on already-decoded text, since every claim is about line
  reassembly, not charset decoding.
* `JSON.parse` is modelled by an executable recursive-descent parser
  `Json.parse`; a JS exception is modelled as `none`.
* JS objects with optional keys are modelled as structures with `Option`
  fields; JS truthiness of a string field `s` is `s ≠ ""`, of an optional
  bool field `b` is `b.getD false`.
* `generateId()` and `Date.now()` are modelled by a monotone counter carried
  in the manager state; no claim depends on the concrete values.
-/

namespace ChromeGemini

/-- JSON values.  Numbers keep their source lexeme: no claim inspects a
numeric value, only whether parsing succeeds. -/
inductive Json where
  | null
  | bool (b : Bool)
  | num (lexeme : String)
  | str (s : String)
  | arr (elems : List Json)
  | obj (fields : List (String × Json))

/-- JSON whitespace, as accepted between tokens by `JSON.parse`. -/
def jsonWs (c : Char) : Bool := c = ' ' || c = '\t' || c = '\n' || c = '\r'

/-- Skip insignificant whitespace. -/
def skipWs (cs : List Char) : List Char := cs.dropWhile jsonWs

/-- Value of one hexadecimal digit. -/
def hexVal (c : Char) : Option Nat :=
  if '0' ≤ c ∧ c ≤ '9' then some (c.toNat - '0'.toNat)
  else if 'a' ≤ c ∧ c ≤ 'f' then some (c.toNat - 'a'.toNat + 10)
  else if 'A' ≤ c ∧ c ≤ 'F' then some (c.toNat - 'A'.toNat + 10)
  else none

/-- Parse exactly four hex digits (the `\uXXXX` escape payload). -/
def parseHex4 : List Char → Option (Nat × List Char)
  | c1 :: c2 :: c3 :: c4 :: rest => do
    let h1 ← hexVal c1
    let h2 ← hexVal c2
    let h3 ← hexVal c3
    let h4 ← hexVal c4
    pure (((h1 * 16 + h2) * 16 + h3) * 16 + h4, rest)
  | _ => none

/-- Parse the body of a JSON string after the opening quote, returning the
decoded string and the input after the closing quote. -/
def parseStringRest : Nat → List Char → List Char → Option (String × List Char)
  | 0, _, _ => none
  | fuel + 1, cs, acc =>
    match cs with
    | [] => none
    | '\"' :: rest => some (String.mk acc.reverse, rest)
    | '\\' :: esc =>
      match esc with
      | 'n' :: rest => parseStringRest fuel rest ('\n' :: acc)
      | 't' :: rest => parseStringRest fuel rest ('\t' :: acc)
      | 'r' :: rest => parseStringRest fuel rest ('\r' :: acc)
      | 'b' :: rest => parseStringRest fuel rest ('\x08' :: acc)
      | 'f' :: rest => parseStringRest fuel rest ('\x0c' :: acc)
      | '\"' :: rest => parseStringRest fuel rest ('\"' :: acc)
      | '\\' :: rest => parseStringRest fuel rest ('\\' :: acc)
      | '/' :: rest => parseStringRest fuel rest ('/' :: acc)
      | 'u' :: rest =>
        match parseHex4 rest with
        | some (n, rest2) => parseStringRest fuel rest2 (Char.ofNat n :: acc)
        | none => none
      | _ => none
    | c :: rest =>
      if c.toNat < 0x20 then none else parseStringRest fuel rest (c :: acc)

/-- Longest digit prefix and the remainder. -/
def digitSpan (cs : List Char) : List Char × List Char :=
  (cs.takeWhile Char.isDigit, cs.dropWhile Char.isDigit)

/-- Parse an optional JSON fraction part, returning its lexeme characters. -/
def parseFrac : List Char → Option (List Char × List Char)
  | '.' :: r =>
    let (ds, r2) := digitSpan r
    if ds.isEmpty then none else some ('.' :: ds, r2)
  | cs => some ([], cs)

/-- Parse an optional JSON exponent part, returning its lexeme characters. -/
def parseExp : List Char → Option (List Char × List Char)
  | c :: r =>
    if c = 'e' ∨ c = 'E' then
      let (sg, r1) := match r with
        | '+' :: t => (['+'], t)
        | '-' :: t => (['-'], t)
        | _ => (([] : List Char), r)
      let (ds, r2) := digitSpan r1
      if ds.isEmpty then none else some (c :: (sg ++ ds), r2)
    else some ([], c :: r)
  | [] => some ([], [])

/-- Parse a JSON number, returning its lexeme. -/
def parseNumber (cs : List Char) : Option (String × List Char) :=
  let (sg, cs1) := match cs with
    | '-' :: r => ((['-'] : List Char), r)
    | _ => ([], cs)
  let (ip, cs2) := digitSpan cs1
  if ip.isEmpty then none
  else if ip.head? = some '0' ∧ ip.length > 1 then none
  else
    match parseFrac cs2 with
    | none => none
    | some (fp, cs3) =>
      match parseExp cs3 with
      | none => none
      | some (ep, cs4) => some (String.mk (sg ++ ip ++ fp ++ ep), cs4)

mutual

/-- Parse one JSON value (fuel-indexed recursive descent). -/
def parseVal : Nat → List Char → Option (Json × List Char)
  | 0, _ => none
  | fuel + 1, cs =>
    match skipWs cs with
    | [] => none
    | c :: cs1 =>
      if c = 'n' then
        if cs1.take 3 = ['u', 'l', 'l'] then some (.null, cs1.drop 3) else none
      else if c = 't' then
        if cs1.take 3 = ['r', 'u', 'e'] then some (.bool true, cs1.drop 3) else none
      else if c = 'f' then
        if cs1.take 4 = ['a', 'l', 's', 'e'] then some (.bool false, cs1.drop 4) else none
      else if c = '\"' then
        match parseStringRest (cs1.length + 1) cs1 [] with
        | some (s, rest) => some (.str s, rest)
        | none => none
      else if c = '[' then
        match skipWs cs1 with
        | ']' :: rest => some (.arr [], rest)
        | _ => parseElems fuel cs1 []
      else if c = '{' then
        match skipWs cs1 with
        | '}' :: rest => some (.obj [], rest)
        | _ => parseMembers fuel cs1 []
      else if c = '-' ∨ c.isDigit then
        match parseNumber (c :: cs1) with
        | some (lex, rest) => some (.num lex, rest)
        | none => none
      else none

/-- Parse the elements of a non-empty JSON array (after the `[`). -/
def parseElems : Nat → List Char → List Json → Option (Json × List Char)
  | 0, _, _ => none
  | fuel + 1, cs, acc =>
    match parseVal fuel cs with
    | none => none
    | some (v, rest) =>
      match skipWs rest with
      | ',' :: r => parseElems fuel r (v :: acc)
      | ']' :: r => some (.arr (v :: acc).reverse, r)
      | _ => none

/-- Parse the members of a non-empty JSON object (after the `\x7b`). -/
def parseMembers : Nat → List Char → List (String × Json) → Option (Json × List Char)
  | 0, _, _ => none
  | fuel + 1, cs, acc =>
    match skipWs cs with
    | '\"' :: cs1 =>
      match parseStringRest (cs1.length + 1) cs1 [] with
      | none => none
      | some (key, rest) =>
        match skipWs rest with
        | ':' :: r =>
          match parseVal fuel r with
          | none => none
          | some (v, rest2) =>
            match skipWs rest2 with
            | ',' :: r2 => parseMembers fuel r2 ((key, v) :: acc)
            | '}' :: r2 => some (.obj ((key, v) :: acc).reverse, r2)
            | _ => none
        | _ => none
    | _ => none

end

/-- Model of `JSON.parse` on a character list: the whole (pre-trimmed)
text must be consumed.  `none` models a thrown `SyntaxError`. -/
def Json.parseChars (cs : List Char) : Option Json :=
  match parseVal (2 * cs.length + 2) cs with
  | some (j, rest) => if (skipWs rest).isEmpty then some j else none
  | none => none

/-- Model of `JSON.parse` on a string. -/
def Json.parse (s : String) : Option Json :=
  Json.parseChars s.toList

/-- JS `String.prototype.trim` on a character list: strip whitespace from
both ends. -/
def trimChars (l : List Char) : List Char :=
  ((l.dropWhile Char.isWhitespace).reverse.dropWhile Char.isWhitespace).reverse

/-- `AIBackend.parseSSELine` (src/backends/base.js:26-36): a line is a
payload only when it carries the `data: ` prefix (`startsWith`); the
remainder after the six prefix characters (`slice(6)`), trimmed, is dropped
when it is the `[DONE]` sentinel; otherwise it is handed to `JSON.parse`,
whose failure is caught and yields `none` instead of propagating.  String
inspection is modelled on the character list. -/
def parseSSELine (line : String) : Option Json :=
  if "data: ".toList.isPrefixOf line.toList then
    let data := trimChars (line.toList.drop 6)
    if data = "[DONE]".toList then none
    else Json.parseChars data
  else none

/-! ## SSE line reader (`AIBackend.readSSEStream`, src/backends/base.js:43-71)

Text is modelled as `List Char` so that the buffering proofs can proceed by
structural induction.  A network delivery (`reader.read()` result decoded by
`TextDecoder`) is one `List Char` chunk. -/

/-- `buffer.split('\n')`: split a character list at every newline; always
returns at least one (possibly empty) segment. -/
def splitNl : List Char → List (List Char)
  | [] => [[]]
  | c :: rest =>
    let r := splitNl rest
    if c = '\n' then [] :: r
    else (c :: r.headD []) :: r.tail

/-- JS `line.trim()` is falsy exactly when every character is whitespace. -/
def lineBlank (l : List Char) : Bool := l.all Char.isWhitespace

/-- The loop of `readSSEStream`: append the arriving chunk to the buffer,
split on newline, keep the trailing segment as the new buffer, yield the
complete non-blank segments; when the source is done, yield the remaining
buffer if it is non-blank. -/
def readSSEStreamAux : List Char → List (List Char) → List (List Char)
  | buffer, [] => if lineBlank buffer then [] else [buffer]
  | buffer, chunk :: rest =>
    let lines := splitNl (buffer ++ chunk)
    lines.dropLast.filter (fun l => !(lineBlank l)) ++
      readSSEStreamAux (lines.getLastD []) rest

/-- `AIBackend.readSSEStream`: the lines yielded for a full sequence of
delivered chunks, starting from the empty buffer. -/
def readSSEStream (chunks : List (List Char)) : List (List Char) :=
  readSSEStreamAux [] chunks

/-! ## Data model (`src/chat.js`, §3 of the design) -/

/-- Message roles created by the Conversation Manager. -/
inductive Role where
  | user
  | assistant
deriving DecidableEq, Repr

/-- A conversation message: `addMessage` fills `id` from `generateId()` and
`timestamp` from `Date.now()`, both modelled by the manager's counter. -/
structure Message where
  id : Nat
  role : Role
  content : String
  timestamp : Nat
deriving DecidableEq, Repr

/-- An attached image as handed to the backends: `data` is the full data
URL, `type` the declared MIME type. -/
structure ImageAttachment where
  name : String
  type : String
  data : String
deriving DecidableEq, Repr

/-- Per-call stream options as assembled by `ChatManager.sendMessage`.
`systemPrompt` is a plain string; JS truthiness of the field is `≠ ""`. -/
structure StreamOptions where
  systemPrompt : String
  enableSearch : Bool
  includeThinking : Bool
  images : List ImageAttachment
deriving DecidableEq, Repr

/-- A tool call forwarded by the OpenAI backend; every field is forwarded
verbatim from the delta and may be absent. -/
structure ToolCallInfo where
  id : Option String
  name : Option String
  arguments : Option String
deriving DecidableEq, Repr

/-- The normalized streaming unit.  Each backend `yield` constructs an
object with a subset of these keys; absent keys are `none`. -/
structure Chunk where
  text : Option String
  thought : Option Bool
  searchResults : Option String
  groundingChunks : Option Json
  toolCall : Option ToolCallInfo

/-- Chunk carrying only text and a thought flag. -/
def textChunk (t : String) (th : Bool) : Chunk :=
  ⟨some t, some th, none, none, none⟩

/-- Backend configuration copied by the `AIBackend` constructor. -/
structure BackendConfig where
  apiUrl : String
  apiKey : String
  model : String
deriving DecidableEq, Repr

/-- The argument record of a `fetch(url, init)` call.  The source passes
`method`, `headers` and `body` and never a `signal`, so an `init` built by
either backend carries `signal := none`. -/
structure FetchInit (β : Type) where
  method : String
  headers : List (String × String)
  body : β
  signal : Option Unit

/-! ## Gemini backend (`src/backends/gemini.js`) -/

namespace GeminiBackend

/-- One entry of a `parts` array: a text part or an inline image part.
`data := none` models the `undefined` produced by `split(',')[1]` when the
data URL has no comma. -/
inductive GeminiPart where
  | text (t : String)
  | inlineData (mimeType : String) (data : Option String)
deriving DecidableEq, Repr

/-- One entry of the `contents` array. -/
structure GeminiContent where
  role : String
  parts : List GeminiPart
deriving DecidableEq, Repr

/-- The `systemInstruction` object. -/
structure SystemInstruction where
  parts : List GeminiPart
deriving DecidableEq, Repr

/-- The `thinkingConfig` object. -/
structure ThinkingConfig where
  includeThoughts : Bool
deriving DecidableEq, Repr

/-- The `generationConfig` object. -/
structure GenerationConfig where
  thinkingConfig : ThinkingConfig
deriving DecidableEq, Repr

/-- A `tools` entry; the source only ever builds `googleSearch: \x7b\x7d`. -/
inductive GeminiTool where
  | googleSearch
deriving DecidableEq, Repr

/-- The request body; `Option` fields model conditionally present keys. -/
structure GeminiBody where
  contents : List GeminiContent
  systemInstruction : Option SystemInstruction
  tools : Option (List GeminiTool)
  generationConfig : Option GenerationConfig
deriving DecidableEq, Repr

/-- `GeminiBackend.convertMessages`: assistant maps to role `model`, any
other role to `user`; the content becomes a single text part. -/
def convertMessages (messages : List Message) : List GeminiContent :=
  messages.map (fun msg =>
    { role := if msg.role = Role.assistant then "model" else "user"
      parts := [GeminiPart.text msg.content] })

/-- The inline-data part built for one image: the data URL is split at the
first comma and the payload after it is kept; a falsy `type` defaults to
`image/jpeg`. -/
def imagePart (img : ImageAttachment) : GeminiPart :=
  GeminiPart.inlineData
    (if img.type = "" then "image/jpeg" else img.type)
    ((img.data.splitOn ",")[1]?)

/-- `GeminiBackend.buildRequestBody` (src/backends/gemini.js:24-71). -/
def buildRequestBody (messages : List Message) (options : StreamOptions) :
    GeminiBody :=
  let contents := convertMessages messages
  let contents :=
    if options.images.length > 0 ∧ contents.length > 0 then
      match contents.getLast? with
      | some lastContent =>
        if lastContent.role = "user" then
          contents.dropLast ++
            [{ lastContent with
                parts := lastContent.parts ++ options.images.map imagePart }]
        else contents
      | none => contents
    else contents
  { contents := contents
    systemInstruction :=
      if options.systemPrompt = "" then none
      else some { parts := [GeminiPart.text options.systemPrompt] }
    tools := if options.enableSearch then some [GeminiTool.googleSearch] else none
    generationConfig :=
      if options.includeThinking then
        some { thinkingConfig := { includeThoughts := true } }
      else none }

/-- The URL of the streaming request. -/
def requestUrl (cfg : BackendConfig) : String :=
  cfg.apiUrl ++ "/models/" ++ cfg.model ++ ":streamGenerateContent?alt=sse"

/-- The `fetch` init record built by `GeminiBackend.streamChat`
(src/backends/gemini.js:86-90): method, headers and body only — in
particular no `signal`, so no abort signal is attached to the request. -/
def fetchInit (cfg : BackendConfig) (messages : List Message)
    (options : StreamOptions) : FetchInit GeminiBody :=
  { method := "POST"
    headers := [("Content-Type", "application/json"),
                ("x-goog-api-key", cfg.apiKey)]
    body := buildRequestBody messages options
    signal := none }

/-- A decoded event's `candidates[k].content.parts[i]` entry; `thought` is
read with `|| false`. -/
structure GPart where
  text : Option String
  thought : Option Bool
deriving DecidableEq, Repr

/-- `candidates[k].content`; `parts := some []` is a present-but-empty
array, which is truthy in JS. -/
structure GContent where
  parts : Option (List GPart)

/-- `candidates[k].groundingMetadata.searchEntryPoint`. -/
structure GSearchEntryPoint where
  renderedContent : Option String

/-- `candidates[k].groundingMetadata`; `groundingChunks` is forwarded
verbatim (it may be absent). -/
structure GGroundingMetadata where
  searchEntryPoint : Option GSearchEntryPoint
  groundingChunks : Option Json

/-- One element of `candidates`. -/
structure GCandidate where
  content : Option GContent
  groundingMetadata : Option GGroundingMetadata

/-- A decoded Gemini SSE event. -/
structure GeminiEvent where
  candidates : Option (List GCandidate)

/-- The grounding chunk emitted for a candidate, when its grounding
metadata carries truthy rendered search content. -/
def groundingChunksOf (cand : GCandidate) : List Chunk :=
  match cand.groundingMetadata with
  | none => []
  | some g =>
    match g.searchEntryPoint with
    | none => []
    | some sep =>
      match sep.renderedContent with
      | none => []
      | some rc =>
        if rc = "" then []
        else [⟨none, none, some rc, g.groundingChunks, none⟩]

/-- The chunks `GeminiBackend.streamChat` yields for one decoded event
(src/backends/gemini.js:97-122): only `candidates[0]` is read; the whole
event is skipped unless it has truthy `content.parts`; each part with
truthy `text` yields a text chunk with `thought` defaulted to `false`;
then the grounding chunk, if any, is yielded. -/
def eventChunks (e : GeminiEvent) : List Chunk :=
  match e.candidates.bind List.head? with
  | none => []
  | some cand =>
    match cand.content.bind (fun c => c.parts) with
    | none => []
    | some parts =>
      parts.filterMap (fun p =>
        match p.text with
        | some t =>
          if t = "" then none
          else some (textChunk t (p.thought.getD false))
        | none => none) ++
      groundingChunksOf cand

end GeminiBackend

/-! ## OpenAI-compatible backend (`src/backends/openai.js`) -/

namespace OpenAIBackend

/-- One element of a content-parts array used for vision requests. -/
inductive ContentPart where
  | text (t : String)
  | imageUrl (url : String)
deriving DecidableEq, Repr

/-- An outbound message `content`: a plain string, or a parts array after
image conversion. -/
inductive MessageContent where
  | str (s : String)
  | parts (ps : List ContentPart)
deriving DecidableEq, Repr

/-- One entry of the outbound `messages` array. -/
structure OutMessage where
  role : String
  content : MessageContent
deriving DecidableEq, Repr

/-- The request body: `model`, `messages`, `stream: true` and nothing else
(search/grounding never appears). -/
structure OpenAIBody where
  model : String
  messages : List OutMessage
  stream : Bool
deriving DecidableEq, Repr

/-- `Role.user` and `Role.assistant` serialize to the JS strings the
manager stores in `msg.role`. -/
def roleString : Role → String
  | Role.user => "user"
  | Role.assistant => "assistant"

/-- `OpenAIBackend.convertMessages`: prepend a system entry when the prompt
is truthy, then pass every message through with its role unchanged. -/
def convertMessages (messages : List Message) (systemPrompt : String) :
    List OutMessage :=
  (if systemPrompt = "" then []
   else [{ role := "system", content := MessageContent.str systemPrompt }]) ++
  messages.map (fun msg =>
    { role := roleString msg.role, content := MessageContent.str msg.content })

/-- `OpenAIBackend.buildRequestBody` (src/backends/openai.js:38-73): when
images are present and the final entry is a user message, its string
content becomes a parts array of the original text followed by one
image-url entry per image, each carrying the unmodified data URL. -/
def buildRequestBody (cfg : BackendConfig) (messages : List Message)
    (options : StreamOptions) : OpenAIBody :=
  let convertedMessages := convertMessages messages options.systemPrompt
  let convertedMessages :=
    if options.images.length > 0 ∧ convertedMessages.length > 0 then
      match convertedMessages.getLast? with
      | some lastMsg =>
        if lastMsg.role = "user" then
          let origText := match lastMsg.content with
            | MessageContent.str s => s
            | MessageContent.parts _ => ""
          convertedMessages.dropLast ++
            [{ lastMsg with
                content := MessageContent.parts
                  (ContentPart.text origText ::
                    options.images.map (fun img => ContentPart.imageUrl img.data)) }]
        else convertedMessages
      | none => convertedMessages
    else convertedMessages
  { model := cfg.model, messages := convertedMessages, stream := true }

/-- The URL of the streaming request. -/
def requestUrl (cfg : BackendConfig) : String :=
  cfg.apiUrl ++ "/chat/completions"

/-- The `fetch` init record built by `OpenAIBackend.streamChat`
(src/backends/openai.js:81-96): the Authorization header is present only
for a truthy API key, and no `signal` is ever attached. -/
def fetchInit (cfg : BackendConfig) (messages : List Message)
    (options : StreamOptions) : FetchInit OpenAIBody :=
  { method := "POST"
    headers := [("Content-Type", "application/json")] ++
      (if cfg.apiKey = "" then []
       else [("Authorization", "Bearer " ++ cfg.apiKey)])
    body := buildRequestBody cfg messages options
    signal := none }

/-- One entry of `choices[k].delta.tool_calls`. -/
structure DToolFunction where
  name : Option String
  arguments : Option String
deriving DecidableEq, Repr

/-- A raw tool call in a delta; `function` is read with optional chaining. -/
structure DToolCall where
  id : Option String
  function : Option DToolFunction
deriving DecidableEq, Repr

/-- `choices[k].delta`; `tool_calls := some []` is a present-but-empty
array, which is truthy. -/
structure ODelta where
  content : Option String
  tool_calls : Option (List DToolCall)
  reasoning_content : Option String
deriving DecidableEq, Repr

/-- One element of `choices`. -/
structure OChoice where
  delta : Option ODelta
deriving DecidableEq, Repr

/-- A decoded OpenAI SSE event. -/
structure OpenAIEvent where
  choices : Option (List OChoice)
deriving DecidableEq, Repr

/-- The chunks `OpenAIBackend.streamChat` yields for one decoded event
(src/backends/openai.js:103-139): only `choices[0].delta` is read; a truthy
`content` yields a non-thought text chunk, then each `tool_calls` entry
yields a tool-call chunk with id, name and arguments forwarded verbatim,
then a truthy `reasoning_content` yields a thought chunk.  The per-call
options are never consulted here. -/
def eventChunks (e : OpenAIEvent) : List Chunk :=
  match e.choices.bind List.head? with
  | none => []
  | some choice =>
    match choice.delta with
    | none => []
    | some d =>
      (match d.content with
        | some c => if c = "" then [] else [textChunk c false]
        | none => []) ++
      (match d.tool_calls with
        | some tcs =>
          tcs.map (fun tc =>
            (⟨none, none, none, none,
              some { id := tc.id
                     name := tc.function.bind (fun f => f.name)
                     arguments := tc.function.bind (fun f => f.arguments) }⟩ : Chunk))
        | none => []) ++
      (match d.reasoning_content with
        | some r => if r = "" then [] else [textChunk r true]
        | none => [])

end OpenAIBackend

/-! ## Conversation manager (`ChatManager`, src/chat.js)

`sendMessage` is an async generator.  Its one full consumption is modelled
as a function of the prior manager state, the user input, the chunks the
backend produced before the stream ended, and how it ended: `completed`
(the chunk sequence finished normally), `cancelled` (the iteration was torn
down early — consumer break / generator return, the AbortError path), or
`errored` (the backend threw).  The `try`/`finally` semantics are explicit:
on every ending the streaming flag and controller are reset, and the
assistant commit happens only on normal completion. -/

/-- The settings fields `sendMessage` reads when building stream options. -/
structure Settings where
  systemPrompt : String
  enableSearch : Bool
  includeThinking : Bool
deriving DecidableEq, Repr

/-- An `AbortController`: only its aborted flag is observable here. -/
structure AbortController where
  aborted : Bool
deriving DecidableEq, Repr

/-- The mutable fields of a `ChatManager`, plus the id/timestamp counter
modelling `generateId()` and `Date.now()`. -/
structure ChatState where
  messages : List Message
  isStreaming : Bool
  abortController : Option AbortController
  settings : Settings
  clock : Nat
deriving DecidableEq, Repr

/-- Page content as returned by the extractor. -/
structure PageContent where
  title : String
  url : String
  content : String
deriving DecidableEq, Repr

/-- The options argument of `sendMessage`; an absent `images` key is the
empty list (the source reads `options.images || []`). -/
structure SendOptions where
  pageContent : Option PageContent
  images : List ImageAttachment
deriving DecidableEq, Repr

/-- `ChatManager.addMessage`: push a fresh message and return it. -/
def addMessage (st : ChatState) (role : Role) (content : String) :
    ChatState × Message :=
  let m : Message := { id := st.clock, role := role, content := content,
                       timestamp := st.clock }
  ({ st with messages := st.messages ++ [m], clock := st.clock + 1 }, m)

/-- The fixed page-context template `sendMessage` wraps the user text in
when page content is supplied. -/
def pageContextWrap (pc : PageContent) (userMessage : String) : String :=
  "[Current Page Context]\nTitle: " ++ pc.title ++ "\nURL: " ++ pc.url ++
    "\n\nContent:\n" ++ pc.content ++ "\n\n---\n\nUser Question: " ++ userMessage

/-- The outbound content of the user turn. -/
def composeContent (userMessage : String) (options : SendOptions) : String :=
  match options.pageContent with
  | some pc => pageContextWrap pc userMessage
  | none => userMessage

/-- The two running accumulators of a streaming turn. -/
structure Accum where
  fullResponse : String
  fullThinking : String
deriving DecidableEq, Repr

/-- JS truthiness of `chunk.thought`. -/
def chunkIsThought (c : Chunk) : Bool := c.thought.getD false

/-- JS truthiness of `chunk.text`. -/
def chunkHasText (c : Chunk) : Bool :=
  match c.text with
  | some t => t ≠ ""
  | none => false

/-- The loop body of `sendMessage` acting on the accumulators: a thought
chunk extends `fullThinking` by `chunk.text || ''`, otherwise a truthy
`chunk.text` extends `fullResponse`. -/
def chunkStep (a : Accum) (c : Chunk) : Accum :=
  if chunkIsThought c then
    { a with fullThinking := a.fullThinking ++ (c.text.getD "") }
  else if chunkHasText c then
    { a with fullResponse := a.fullResponse ++ (c.text.getD "") }
  else a

/-- What `sendMessage` yields per chunk: the spread of the original chunk
plus snapshots of both accumulators taken after the update. -/
structure Yielded where
  chunk : Chunk
  fullResponse : String
  fullThinking : String

/-- Run the streaming loop over the delivered chunks, producing the final
accumulators and the yielded sequence in order. -/
def runStream (a : Accum) : List Chunk → Accum × List Yielded
  | [] => (a, [])
  | c :: rest =>
    let a2 := chunkStep a c
    let (af, outs) := runStream a2 rest
    (af, { chunk := c, fullResponse := a2.fullResponse,
           fullThinking := a2.fullThinking } :: outs)

/-- How the backend's chunk sequence ended underneath the loop. -/
inductive StreamEnding where
  | completed
  | cancelled
  | errored (msg : String)
deriving DecidableEq, Repr

/-- The observable outcome of one `sendMessage` consumption. -/
inductive SendOutcome where
  | ok
  | cancelled
  | errored (msg : String)
  | usageError (msg : String)
deriving DecidableEq, Repr

/-- Everything observable about one `sendMessage` consumption.
`streamStarted` records whether `backend.streamChat` iteration began (it is
false exactly for the already-streaming usage failure, which throws before
any network activity); `streamOptions` records the options handed to the
backend when it did. -/
structure SendResult where
  outputs : List Yielded
  finalState : ChatState
  outcome : SendOutcome
  streamStarted : Bool
  streamOptions : Option StreamOptions

/-- `ChatManager.sendMessage` (src/chat.js): the guard throws while a
stream is in flight, before any state change; otherwise the user turn is
composed and appended, the backend stream is consumed, and only a normal
ending commits the accumulated response as an assistant message.  The
`finally` block resets the flag and the controller on every ending. -/
def sendMessage (st : ChatState) (userMessage : String)
    (options : SendOptions) (chunks : List Chunk) (ending : StreamEnding) :
    SendResult :=
  if st.isStreaming then
    { outputs := []
      finalState := st
      outcome := SendOutcome.usageError "Already streaming a response"
      streamStarted := false
      streamOptions := none }
  else
    let st1 := { st with isStreaming := true,
                         abortController := some { aborted := false } }
    let content := composeContent userMessage options
    let (st2, _userMsg) := addMessage st1 Role.user content
    let streamOptions : StreamOptions :=
      { systemPrompt := st.settings.systemPrompt
        enableSearch := st.settings.enableSearch
        includeThinking := st.settings.includeThinking
        images := options.images }
    let (acc, outs) := runStream { fullResponse := "", fullThinking := "" } chunks
    let st3 := match ending with
      | StreamEnding.completed => (addMessage st2 Role.assistant acc.fullResponse).1
      | _ => st2
    { outputs := outs
      finalState := { st3 with isStreaming := false, abortController := none }
      outcome := match ending with
        | StreamEnding.completed => SendOutcome.ok
        | StreamEnding.cancelled => SendOutcome.cancelled
        | StreamEnding.errored m => SendOutcome.errored m
      streamStarted := true
      streamOptions := some streamOptions }

/-- `ChatManager.stopStreaming` (src/chat.js): abort the current controller
when one exists.  Nothing else of the state is touched — and since neither
backend attaches a signal to its `fetch`, the flag flip is the entire
effect. -/
def stopStreaming (st : ChatState) : ChatState :=
  match st.abortController with
  | some _ => { st with abortController := some { aborted := true } }
  | none => st

/-- `ChatManager.clearConversation`: reset the history. -/
def clearConversation (st : ChatState) : ChatState :=
  { st with messages := [] }

/-! ## Claims about the SSE event decoder -/

/-- C5: for every input line, the SSE event decoder returns a parsed JSON
value exactly when the line begins with the literal prefix `data: ` and the
trimmed remainder is valid JSON other than the sentinel `[DONE]`; for any
line without that prefix, for the sentinel, and for malformed JSON after
the prefix it returns no event and does not throw (the parse failure is
caught inside `parseSSELine`, which is a total function here). -/
theorem parseSSELine_payload_characterization :
    (∀ (line : String) (j : Json),
      parseSSELine line = some j ↔
        ("data: ".toList.isPrefixOf line.toList = true ∧
          trimChars (line.toList.drop 6) ≠ "[DONE]".toList ∧
          Json.parseChars (trimChars (line.toList.drop 6)) = some j)) ∧
    parseSSELine "event: ping" = none ∧
    parseSSELine "data: [DONE]" = none ∧
    parseSSELine "data: \x7b\"a\":1\x7d" = some (Json.obj [("a", Json.num "1")]) ∧
    parseSSELine "data: \x7bmalformed" = none := by
  refine ⟨?_, rfl, rfl, rfl, rfl⟩
  intro line j
  unfold parseSSELine
  by_cases h : "data: ".toList.isPrefixOf line.toList
  · by_cases h2 : trimChars (line.toList.drop 6) = "[DONE]".toList <;> simp [h, h2]
  · simp [h]

/-! ## Claims about the conversation manager -/

/-- C3: calling `sendMessage` while a streaming operation is already in
flight fails immediately with the usage error (message
`Already streaming a response`), before any network activity
(`streamStarted = false`, no stream options are ever built) and without any
side effects: the returned state is exactly the prior state and nothing is
yielded. -/
theorem sendMessage_while_streaming_rejects_without_side_effects :
    ∀ (msgs : List Message) (ctrl : Option AbortController)
      (settings : Settings) (clock : Nat) (u : String) (opts : SendOptions)
      (chunks : List Chunk) (ending : StreamEnding),
      sendMessage ⟨msgs, true, ctrl, settings, clock⟩ u opts chunks ending =
        { outputs := []
          finalState := ⟨msgs, true, ctrl, settings, clock⟩
          outcome := SendOutcome.usageError "Already streaming a response"
          streamStarted := false
          streamOptions := none } := by
  intro msgs ctrl settings clock u opts chunks ending
  rfl

/-- C2: when a streaming operation is cancelled (the iteration is torn down
before the chunk sequence completes), the manager does not synthesize a
partial assistant message from the accumulated text: the final history is
exactly the history at the start of streaming (the user turn appended on
Idle→Streaming), every assistant message in it was already there before the
call, and the turn ends back in the non-streaming state. -/
theorem cancelled_turn_commits_no_assistant_message :
    ∀ (msgs : List Message) (ctrl : Option AbortController)
      (settings : Settings) (clock : Nat) (u : String) (opts : SendOptions)
      (chunks : List Chunk),
      (sendMessage ⟨msgs, false, ctrl, settings, clock⟩ u opts chunks
          StreamEnding.cancelled).finalState.messages =
        msgs ++ [⟨clock, Role.user, composeContent u opts, clock⟩] ∧
      (∀ m ∈ (sendMessage ⟨msgs, false, ctrl, settings, clock⟩ u opts chunks
          StreamEnding.cancelled).finalState.messages,
        m.role = Role.assistant → m ∈ msgs) ∧
      (sendMessage ⟨msgs, false, ctrl, settings, clock⟩ u opts chunks
          StreamEnding.cancelled).outcome = SendOutcome.cancelled ∧
      (sendMessage ⟨msgs, false, ctrl, settings, clock⟩ u opts chunks
          StreamEnding.cancelled).finalState.isStreaming = false := by
  intro msgs ctrl settings clock u opts chunks
  refine ⟨rfl, ?_, rfl, rfl⟩
  intro m hm hrole
  have hmem : m ∈ msgs ++ [(⟨clock, Role.user, composeContent u opts, clock⟩ : Message)] := hm
  rcases List.mem_append.mp hmem with h | h
  · exact h
  · rcases List.mem_singleton.mp h with rfl
    simp at hrole

/-- C2 witness: a concrete cancelled turn with partial text `Hi th` leaves
only the user turn in history. -/
theorem cancelled_turn_commits_no_assistant_message_witness :
    (sendMessage ⟨[], false, none, ⟨"", false, false⟩, 0⟩ "hi" ⟨none, []⟩
        [textChunk "Hi th" false] StreamEnding.cancelled).finalState.messages =
      [⟨0, Role.user, "hi", 0⟩] ∧
    (∀ m ∈ (sendMessage ⟨[], false, none, ⟨"", false, false⟩, 0⟩ "hi" ⟨none, []⟩
        [textChunk "Hi th" false] StreamEnding.cancelled).finalState.messages,
      m.role = Role.assistant → m ∈ ([] : List Message)) :=
  ⟨(cancelled_turn_commits_no_assistant_message [] none ⟨"", false, false⟩ 0
      "hi" ⟨none, []⟩ [textChunk "Hi th" false]).1,
   (cancelled_turn_commits_no_assistant_message [] none ⟨"", false, false⟩ 0
      "hi" ⟨none, []⟩ [textChunk "Hi th" false]).2.1⟩

/-- C1 (the code fails this claim): a fresh `AbortController` is indeed
created per operation and `stopStreaming` does signal it, but neither
backend ever attaches an abort signal to its `fetch` call — the init record
built by `streamChat` carries `signal = none` for all configurations,
messages and options, so aborting the controller cannot abort the in-flight
network read; consistently, the whole result of a send is independent of
the controller state, and `stopStreaming` changes nothing observable but
the controller flag. -/
theorem fetch_has_no_abort_signal :
    (∀ (cfg : BackendConfig) (messages : List Message) (options : StreamOptions),
      (GeminiBackend.fetchInit cfg messages options).signal = none ∧
      (OpenAIBackend.fetchInit cfg messages options).signal = none) ∧
    (∀ (st : ChatState) (b : Bool),
      (stopStreaming { st with abortController := some ⟨b⟩ }).abortController =
        some ⟨true⟩) ∧
    (∀ (st : ChatState),
      (stopStreaming st).messages = st.messages ∧
      (stopStreaming st).isStreaming = st.isStreaming) ∧
    (∀ (msgs : List Message) (c1 c2 : Option AbortController)
      (settings : Settings) (clock : Nat) (u : String) (opts : SendOptions)
      (chunks : List Chunk) (ending : StreamEnding),
      sendMessage ⟨msgs, false, c1, settings, clock⟩ u opts chunks ending =
        sendMessage ⟨msgs, false, c2, settings, clock⟩ u opts chunks ending) := by
  refine ⟨fun _ _ _ => ⟨rfl, rfl⟩, fun _ _ => rfl, ?_, fun _ _ _ _ _ _ _ _ _ => rfl⟩
  intro st
  unfold stopStreaming
  cases st.abortController <;> simp

/-! ## Claims about the Gemini request body -/

open GeminiBackend in
/-- C7: the Gemini request body maps each message to role `model` when it
is an assistant message and `user` otherwise with a single text part;
image parts (data-URL payload after the first comma, paired with the
declared MIME type, via `imagePart`) are appended to the parts of the
final entry exactly when messages and images are non-empty and that entry
is a user turn; `systemInstruction` is present iff a (truthy) system
prompt was supplied; `tools` equals `[googleSearch]` iff search is
enabled; `generationConfig.thinkingConfig.includeThoughts = true` iff
thinking was requested; with both flags false neither key is present. -/
theorem gemini_buildRequestBody_characterization :
    ∀ (messages : List Message) (options : StreamOptions),
      ((buildRequestBody messages options).contents =
        match messages.getLast? with
        | some m =>
          if options.images ≠ [] ∧ m.role = Role.user then
            (convertMessages messages).dropLast ++
              [{ role := "user"
                 parts := [GeminiPart.text m.content] ++
                   options.images.map imagePart }]
          else convertMessages messages
        | none => convertMessages messages) ∧
      (convertMessages messages = messages.map (fun msg =>
        { role := if msg.role = Role.assistant then "model" else "user"
          parts := [GeminiPart.text msg.content] })) ∧
      ((buildRequestBody messages options).systemInstruction =
        if options.systemPrompt = "" then none
        else some { parts := [GeminiPart.text options.systemPrompt] }) ∧
      ((buildRequestBody messages options).tools =
        if options.enableSearch then some [GeminiTool.googleSearch] else none) ∧
      ((buildRequestBody messages options).generationConfig =
        if options.includeThinking then
          some { thinkingConfig := { includeThoughts := true } }
        else none) ∧
      ((buildRequestBody messages
          { options with enableSearch := false,
                         includeThinking := false }).tools = none ∧
        (buildRequestBody messages
          { options with enableSearch := false,
                         includeThinking := false }).generationConfig = none) := by
  intro messages options
  refine ⟨?_, rfl, rfl, rfl, rfl, rfl, rfl⟩
  rcases List.eq_nil_or_concat messages with rfl | ⟨L, m, rfl⟩
  · simp [buildRequestBody, convertMessages]
  · rw [List.concat_eq_append]
    by_cases himg : options.images = []
    · simp [buildRequestBody, convertMessages, himg, List.getLast?_concat]
    · have hlen : 0 < options.images.length := List.length_pos.mpr himg
      cases hm : m.role
      · simp [buildRequestBody, convertMessages, himg, hlen,
              List.getLast?_concat, List.dropLast_concat, hm]
      · simp [buildRequestBody, convertMessages, himg, hlen,
              List.getLast?_concat, hm]

/-! ## Claims about the response mappings -/

open GeminiBackend in
/-- C8: for each decoded Gemini event only `candidates[0]` is consulted
(the chunks are invariant under the remaining candidates); for a candidate
with truthy `content.parts` the yielded chunks are exactly the text chunks
of the parts with truthy `text` — `thought` taken from the part's own flag
defaulted to `false` — followed by the grounding chunk (rendered HTML plus
the raw grounding-chunk list) when rendered search content is present;
the spec's two-frame example and a combined text+grounding event evaluate
accordingly. -/
theorem gemini_event_mapping :
    (∀ (c : GCandidate) (rest rest2 : List GCandidate),
      eventChunks ⟨some (c :: rest)⟩ = eventChunks ⟨some (c :: rest2)⟩) ∧
    (∀ (parts : List GPart) (gm : Option GGroundingMetadata)
      (rest : List GCandidate),
      eventChunks ⟨some (⟨some ⟨some parts⟩, gm⟩ :: rest)⟩ =
        parts.filterMap (fun p =>
          match p.text with
          | some t => if t = "" then none
                      else some (textChunk t (p.thought.getD false))
          | none => none) ++
        groundingChunksOf ⟨some ⟨some parts⟩, gm⟩) ∧
    (eventChunks ⟨some [⟨some ⟨some [⟨some "Thinking...", some true⟩,
        ⟨some "Hello!", none⟩]⟩, none⟩]⟩ =
      [textChunk "Thinking..." true, textChunk "Hello!" false]) ∧
    (eventChunks ⟨some [⟨some ⟨some [⟨some "Hi", none⟩]⟩,
        some ⟨some ⟨some "<div>search</div>"⟩, some (Json.arr [])⟩⟩]⟩ =
      [textChunk "Hi" false,
       ⟨none, none, some "<div>search</div>", some (Json.arr []), none⟩]) := by
  exact ⟨fun c rest rest2 => rfl, fun parts gm rest => rfl, rfl, rfl⟩

open OpenAIBackend in
/-- C9: for each decoded OpenAI event only `choices[0].delta` is read, and
the three independent signals yield their own chunks in the fixed order
content, then one chunk per tool call (id, function name and arguments
forwarded verbatim), then reasoning content as a thought chunk; the
response mapping takes no options at all, and the request body is
invariant under `includeThinking`, so reasoning is surfaced whenever the
server sends it regardless of whether thinking was requested. -/
theorem openai_event_mapping :
    (∀ (ch : OChoice) (rest rest2 : List OChoice),
      eventChunks ⟨some (ch :: rest)⟩ = eventChunks ⟨some (ch :: rest2)⟩) ∧
    (∀ (d : ODelta) (rest : List OChoice),
      eventChunks ⟨some (⟨some d⟩ :: rest)⟩ =
        (match d.content with
          | some c => if c = "" then [] else [textChunk c false]
          | none => []) ++
        (match d.tool_calls with
          | some tcs => tcs.map (fun tc =>
              (⟨none, none, none, none,
                some ⟨tc.id, tc.function.bind (fun f => f.name),
                      tc.function.bind (fun f => f.arguments)⟩⟩ : Chunk))
          | none => []) ++
        (match d.reasoning_content with
          | some r => if r = "" then [] else [textChunk r true]
          | none => [])) ∧
    (∀ (cfg : BackendConfig) (messages : List Message)
      (options : StreamOptions) (b : Bool),
      OpenAIBackend.buildRequestBody cfg messages
          { options with includeThinking := b } =
        OpenAIBackend.buildRequestBody cfg messages options) ∧
    (eventChunks ⟨some [⟨some ⟨some "Hello",
        some [⟨some "call-1", some ⟨some "get", some "\x7b\"q\":"⟩⟩], some "because"⟩⟩]⟩ =
      [textChunk "Hello" false,
       ⟨none, none, none, none, some ⟨some "call-1", some "get", some "\x7b\"q\":"⟩⟩,
       textChunk "because" true]) := by
  exact ⟨fun ch rest rest2 => rfl, fun d rest => rfl,
         fun cfg messages options b => rfl, rfl⟩

/-- All text chunks produced from a Gemini parts array have non-empty
text. -/
theorem gemini_part_chunks_text_ne_empty (parts : List GeminiBackend.GPart) :
    ∀ c ∈ parts.filterMap (fun p =>
      match p.text with
      | some t => if t = "" then none
                  else some (textChunk t (p.thought.getD false))
      | none => none), ¬ c.text = some "" := by
  induction parts with
  | nil => intro c hc; simp at hc
  | cons p rest ih =>
    intro c hc
    rw [List.filterMap_cons] at hc
    split at hc
    · exact ih c hc
    · rename_i b hb
      rcases List.mem_cons.mp hc with rfl | h
      · split at hb
        · split at hb
          · exact absurd hb (by simp)
          · rename_i t _ ht
            rcases Option.some_inj.mp hb with rfl
            simp [textChunk, ht]
        · exact absurd hb (by simp)
      · exact ih c h

/-- The grounding chunk never carries text. -/
theorem grounding_chunks_text_none (cand : GeminiBackend.GCandidate) :
    ∀ c ∈ GeminiBackend.groundingChunksOf cand, ¬ c.text = some "" := by
  intro c hc
  unfold GeminiBackend.groundingChunksOf at hc
  split at hc
  · simp at hc
  · split at hc
    · simp at hc
    · split at hc
      · simp at hc
      · split at hc
        · simp at hc
        · rcases List.mem_singleton.mp hc with rfl
          simp

/-- C10: a Gemini part with empty-string text and an OpenAI delta with
empty-string content (or reasoning content) produce no chunk at all —
presence is tested by truthiness — so no chunk of either backend ever has
`text = some ""`. -/
theorem no_empty_text_chunks :
    (∀ (e : GeminiBackend.GeminiEvent) (c : Chunk),
      c ∈ GeminiBackend.eventChunks e → ¬ c.text = some "") ∧
    (∀ (e : OpenAIBackend.OpenAIEvent) (c : Chunk),
      c ∈ OpenAIBackend.eventChunks e → ¬ c.text = some "") ∧
    (GeminiBackend.eventChunks ⟨some [⟨some ⟨some [⟨some "", some true⟩,
        ⟨some "", none⟩]⟩, none⟩]⟩ = []) ∧
    (OpenAIBackend.eventChunks ⟨some [⟨some ⟨some "", none, some ""⟩⟩]⟩ = []) := by
  refine ⟨?_, ?_, rfl, rfl⟩
  · intro e c hc
    unfold GeminiBackend.eventChunks at hc
    split at hc
    · simp at hc
    · split at hc
      · simp at hc
      · rw [List.mem_append] at hc
        rcases hc with h | h
        · exact gemini_part_chunks_text_ne_empty _ c h
        · exact grounding_chunks_text_none _ c h
  · intro e c hc
    unfold OpenAIBackend.eventChunks at hc
    split at hc
    · simp at hc
    · split at hc
      · simp at hc
      · rw [List.mem_append, List.mem_append] at hc
        rcases hc with (h | h) | h
        · split at h
          · rename_i s hs
            split at h
            · simp at h
            · rcases List.mem_singleton.mp h with rfl
              simp [textChunk]
              rename_i hne
              exact hne
          · simp at h
        · split at h
          · rcases List.mem_map.mp h with ⟨tc, _, rfl⟩
            simp
          · simp at h
        · split at h
          · rename_i s hs
            split at h
            · simp at h
            · rcases List.mem_singleton.mp h with rfl
              simp [textChunk]
              rename_i hne
              exact hne
          · simp at h

/-- C10 witness: the theorem applied to concrete single-chunk events of
both backends. -/
theorem no_empty_text_chunks_witness :
    ¬ (textChunk "hi" false).text = some "" ∧
    ¬ (textChunk "ok" false).text = some "" :=
  ⟨no_empty_text_chunks.1 ⟨some [⟨some ⟨some [⟨some "hi", none⟩]⟩, none⟩]⟩
      (textChunk "hi" false) (List.mem_singleton.mpr rfl),
   no_empty_text_chunks.2.1 ⟨some [⟨some ⟨some "ok", none, none⟩⟩]⟩
      (textChunk "ok" false) (List.mem_singleton.mpr rfl)⟩

/-! ## Claims about the streaming loop of `sendMessage` -/

/-- Folding string append from any seed equals seed plus the join. -/
theorem foldl_append_eq_append_join :
    ∀ (l : List String) (a : String),
      l.foldl (fun x y => x ++ y) a = a ++ String.join l := by
  intro l
  induction l with
  | nil => intro a; simp [String.join]
  | cons s rest ih =>
    intro a
    have h1 : String.join (s :: rest) = s ++ String.join rest := by
      show (s :: rest).foldl (fun x y => x ++ y) "" = _
      rw [List.foldl_cons, ih ("" ++ s)]
      simp
    rw [List.foldl_cons, ih (a ++ s), h1, String.append_assoc]

/-- `String.join` unfolds on cons. -/
theorem join_cons (s : String) (l : List String) :
    String.join (s :: l) = s ++ String.join l := by
  show (s :: l).foldl (fun x y => x ++ y) "" = _
  rw [List.foldl_cons, foldl_append_eq_append_join l ("" ++ s)]
  simp

/-- A chunk that is neither a thought nor has truthy text contributes the
empty string. -/
theorem text_getD_of_not_hasText (c : Chunk) (h : chunkHasText c = false) :
    c.text.getD "" = "" := by
  unfold chunkHasText at h
  cases ht : c.text with
  | none => rfl
  | some t =>
    rw [ht] at h
    simp only [decide_eq_false_iff_not, not_not] at h
    simp [h]

/-- The final `fullResponse` is the concatenation of the texts of the
non-thought chunks. -/
theorem runStream_fullResponse :
    ∀ (chunks : List Chunk) (a : Accum),
      ((runStream a chunks).1).fullResponse =
        a.fullResponse ++ String.join
          ((chunks.filter (fun c => !(chunkIsThought c))).map
            (fun c => c.text.getD "")) := by
  intro chunks
  induction chunks with
  | nil => intro a; simp [runStream, String.join]
  | cons c rest ih =>
    intro a
    by_cases hth : chunkIsThought c
    · simp [runStream, ih, chunkStep, hth, List.filter_cons]
    · by_cases htx : chunkHasText c
      · simp [runStream, ih, chunkStep, hth, htx, List.filter_cons, join_cons,
              String.append_assoc]
      · have h0 : c.text.getD "" = "" :=
          text_getD_of_not_hasText c (by simpa using htx)
        simp [runStream, ih, chunkStep, hth, htx, List.filter_cons, join_cons, h0]

/-- The final `fullThinking` is the concatenation of the texts of the
thought chunks. -/
theorem runStream_fullThinking :
    ∀ (chunks : List Chunk) (a : Accum),
      ((runStream a chunks).1).fullThinking =
        a.fullThinking ++ String.join
          ((chunks.filter chunkIsThought).map (fun c => c.text.getD "")) := by
  intro chunks
  induction chunks with
  | nil => intro a; simp [runStream, String.join]
  | cons c rest ih =>
    intro a
    by_cases hth : chunkIsThought c
    · simp [runStream, ih, chunkStep, hth, List.filter_cons, join_cons,
            String.append_assoc]
    · by_cases htx : chunkHasText c <;>
        simp [runStream, ih, chunkStep, hth, htx, List.filter_cons]

/-- Every chunk is re-yielded unmodified, in order. -/
theorem runStream_map_chunk :
    ∀ (chunks : List Chunk) (a : Accum),
      ((runStream a chunks).2).map Yielded.chunk = chunks := by
  intro chunks
  induction chunks with
  | nil => intro a; rfl
  | cons c rest ih => intro a; simp [runStream, ih]

/-- The i-th yield carries the accumulator snapshots taken right after the
i-th chunk was folded in. -/
theorem runStream_outputs_get :
    ∀ (chunks : List Chunk) (a : Accum) (i : Nat),
      ((runStream a chunks).2)[i]? =
        (chunks[i]?).map (fun c =>
          { chunk := c
            fullResponse := ((runStream a (chunks.take (i + 1))).1).fullResponse
            fullThinking := ((runStream a (chunks.take (i + 1))).1).fullThinking }) := by
  intro chunks
  induction chunks with
  | nil => intro a i; simp [runStream]
  | cons c rest ih =>
    intro a i
    cases i with
    | zero => simp [runStream]
    | succ n => simp [runStream, ih]

open StreamEnding in
/-- C4: for every chunk the manager adds `chunk.text` to `fullThinking`
when the chunk is a thought and to `fullResponse` otherwise (truthy text
only, so the accumulators are exactly the joined texts of the two chunk
classes); each chunk is re-yielded unmodified together with the current
accumulator snapshots; on normal completion exactly one assistant message
whose content is the final `fullResponse` is appended after the user turn;
and truncating the stream at any point without completing leaves no
partially-streamed text in the history. -/
theorem streaming_accumulators_and_single_commit :
    ∀ (msgs : List Message) (ctrl : Option AbortController)
      (settings : Settings) (clock : Nat) (u : String) (opts : SendOptions)
      (chunks : List Chunk),
      ((runStream ⟨"", ""⟩ chunks).1.fullResponse =
        String.join ((chunks.filter (fun c => !(chunkIsThought c))).map
          (fun c => c.text.getD ""))) ∧
      ((runStream ⟨"", ""⟩ chunks).1.fullThinking =
        String.join ((chunks.filter chunkIsThought).map
          (fun c => c.text.getD ""))) ∧
      ((sendMessage ⟨msgs, false, ctrl, settings, clock⟩ u opts chunks
          completed).outputs.map Yielded.chunk = chunks) ∧
      (∀ i : Nat,
        (sendMessage ⟨msgs, false, ctrl, settings, clock⟩ u opts chunks
            completed).outputs[i]? =
          (chunks[i]?).map (fun c =>
            { chunk := c
              fullResponse :=
                (runStream ⟨"", ""⟩ (chunks.take (i + 1))).1.fullResponse
              fullThinking :=
                (runStream ⟨"", ""⟩ (chunks.take (i + 1))).1.fullThinking })) ∧
      ((sendMessage ⟨msgs, false, ctrl, settings, clock⟩ u opts chunks
          completed).finalState.messages =
        msgs ++ [⟨clock, Role.user, composeContent u opts, clock⟩,
                 ⟨clock + 1, Role.assistant,
                  (runStream ⟨"", ""⟩ chunks).1.fullResponse, clock + 1⟩]) ∧
      (∀ k : Nat,
        (sendMessage ⟨msgs, false, ctrl, settings, clock⟩ u opts
            (chunks.take k) StreamEnding.cancelled).finalState.messages =
          msgs ++ [⟨clock, Role.user, composeContent u opts, clock⟩]) := by
  intro msgs ctrl settings clock u opts chunks
  refine ⟨?_, ?_, ?_, ?_, ?_, ?_⟩
  · simpa using runStream_fullResponse chunks ⟨"", ""⟩
  · simpa using runStream_fullThinking chunks ⟨"", ""⟩
  · exact runStream_map_chunk chunks ⟨"", ""⟩
  · intro i
    exact runStream_outputs_get chunks ⟨"", ""⟩ i
  · simp [sendMessage, addMessage]
  · intro k
    simp [sendMessage, addMessage]

/-! ## Claims about the SSE line reader -/

/-- Splitting always yields at least one segment. -/
theorem splitNl_ne_nil : ∀ (s : List Char), splitNl s ≠ [] := by
  intro s
  cases s with
  | nil => simp [splitNl]
  | cons c rest => by_cases h : c = '\n' <;> simp [splitNl, h]

/-- No segment of a split contains a newline. -/
theorem mem_splitNl_no_newline :
    ∀ (s : List Char) (l : List Char), l ∈ splitNl s → ('\n' : Char) ∉ l := by
  intro s
  induction s with
  | nil =>
    intro l hl
    simp [splitNl] at hl
    simp [hl]
  | cons c rest ih =>
    intro l hl
    by_cases h : c = '\n'
    · simp only [splitNl, if_pos h] at hl
      rcases List.mem_cons.mp hl with rfl | hmem
      · simp
      · exact ih l hmem
    · simp only [splitNl, if_neg h] at hl
      rcases List.mem_cons.mp hl with rfl | hmem
      · intro hcon
        rcases List.mem_cons.mp hcon with heq | hmem2
        · exact h heq.symm
        · rcases hr : splitNl rest with _ | ⟨x, xs⟩
          · exact splitNl_ne_nil rest hr
          · rw [hr] at hmem2
            exact ih x (hr ▸ List.mem_cons_self x xs) hmem2
      · exact ih l (List.mem_of_mem_tail hmem)

/-- A newline-free text splits into itself alone. -/
theorem splitNl_of_no_newline :
    ∀ (s : List Char), ('\n' : Char) ∉ s → splitNl s = [s] := by
  intro s
  induction s with
  | nil => intro _; rfl
  | cons c rest ih =>
    intro h
    have hc : ¬ c = '\n' := fun hh => h (hh ▸ List.mem_cons_self c rest)
    have hr : ('\n' : Char) ∉ rest := fun hh => h (List.mem_cons_of_mem c hh)
    simp [splitNl, hc, ih hr]

/-- Splitting a concatenation: the segments of the first part survive
except that its last segment glues onto the front of the second part. -/
theorem splitNl_append :
    ∀ (a : List Char) (L : List (List Char)) (t : List Char) (b : List Char),
      splitNl a = L ++ [t] → splitNl (a ++ b) = L ++ splitNl (t ++ b) := by
  intro a
  induction a with
  | nil =>
    intro L t b h
    cases L with
    | nil =>
      simp only [List.nil_append] at h ⊢
      obtain rfl : t = [] := ((List.cons_eq_cons.mp h).1).symm
      simp
    | cons x xs =>
      exfalso
      simp only [List.cons_append] at h
      have h2 := (List.cons_eq_cons.mp h).2
      exact absurd h2.symm (by simp)
  | cons c rest ih =>
    intro L t b h
    by_cases hc : c = '\n'
    · subst hc
      have hsp : splitNl ('\n' :: rest) = [] :: splitNl rest := by
        simp [splitNl]
      rw [hsp] at h
      cases L with
      | nil =>
        exfalso
        simp only [List.nil_append] at h
        exact splitNl_ne_nil rest (List.cons_eq_cons.mp h).2
      | cons L0 L2 =>
        simp only [List.cons_append] at h
        rcases List.cons_eq_cons.mp h with ⟨hL0, h2⟩
        have hstep : splitNl (('\n' :: rest) ++ b) = [] :: splitNl (rest ++ b) := by
          simp [splitNl]
        rw [hstep, ih L2 t b h2, ← hL0]
        rfl
    · rcases hsr : splitNl rest with _ | ⟨h0, tl⟩
      · exact absurd hsr (splitNl_ne_nil rest)
      · have hsp : splitNl (c :: rest) = (c :: h0) :: tl := by
          simp [splitNl, hc, hsr]
        rw [hsp] at h
        cases L with
        | nil =>
          simp only [List.nil_append] at h ⊢
          rcases List.cons_eq_cons.mp h with ⟨hx, htl⟩
          subst htl
          have hsr2 : splitNl rest = [] ++ [h0] := by simpa using hsr
          have ihres := ih [] h0 b hsr2
          simp only [List.nil_append] at ihres
          rw [← hx]
          show splitNl (c :: (rest ++ b)) = splitNl (c :: (h0 ++ b))
          simp [splitNl, hc, ihres]
        | cons x L2 =>
          simp only [List.cons_append] at h
          rcases List.cons_eq_cons.mp h with ⟨hx, htl⟩
          have hsr2 : splitNl rest = (h0 :: L2) ++ [t] := by
            rw [hsr, htl]
            rfl
          have ihres := ih (h0 :: L2) t b hsr2
          simp only [List.cons_append] at ihres
          rw [← hx]
          show splitNl (c :: (rest ++ b)) = (c :: h0) :: (L2 ++ splitNl (t ++ b))
          simp [splitNl, hc, ihres]

/-- The reader loop is equivalent to splitting the entire delivered text
at newlines and keeping the non-blank segments. -/
theorem readSSEStreamAux_eq :
    ∀ (chunks : List (List Char)) (buffer : List Char),
      ('\n' : Char) ∉ buffer →
      readSSEStreamAux buffer chunks =
        (splitNl (buffer ++ chunks.flatten)).filter (fun l => !(lineBlank l)) := by
  intro chunks
  induction chunks with
  | nil =>
    intro buffer hb
    rw [List.flatten_nil, List.append_nil, splitNl_of_no_newline buffer hb]
    show (if lineBlank buffer then [] else [buffer]) = _
    by_cases h : lineBlank buffer <;> simp [h, List.filter]
  | cons ch rest ih =>
    intro buffer hb
    rcases List.eq_nil_or_concat (splitNl (buffer ++ ch)) with hnil | ⟨L, t, hLt⟩
    · exact absurd hnil (splitNl_ne_nil _)
    · rw [List.concat_eq_append] at hLt
      have htmem : t ∈ splitNl (buffer ++ ch) := by
        rw [hLt]
        exact List.mem_append_right L (List.mem_singleton.mpr rfl)
      have htn : ('\n' : Char) ∉ t := mem_splitNl_no_newline _ t htmem
      show (splitNl (buffer ++ ch)).dropLast.filter (fun l => !(lineBlank l)) ++
          readSSEStreamAux ((splitNl (buffer ++ ch)).getLastD []) rest =
        (splitNl (buffer ++ (ch :: rest).flatten)).filter (fun l => !(lineBlank l))
      rw [List.flatten_cons, ← List.append_assoc,
        splitNl_append (buffer ++ ch) L t rest.flatten hLt, List.filter_append]
      rw [hLt, List.dropLast_concat, List.getLastD_concat, ih t htn]

/-- A newline-free line followed by a newline splits off whole. -/
theorem splitNl_line_append :
    ∀ (l rest : List Char), ('\n' : Char) ∉ l →
      splitNl (l ++ '\n' :: rest) = l :: splitNl rest := by
  intro l
  induction l with
  | nil => intro rest _; simp [splitNl]
  | cons c l2 ih =>
    intro rest h
    have hc : ¬ c = '\n' := fun hh => h (hh ▸ List.mem_cons_self c l2)
    have hl2 : ('\n' : Char) ∉ l2 := fun hh => h (List.mem_cons_of_mem c hh)
    simp [splitNl, hc, ih rest hl2]

/-- Splitting a text assembled from newline-terminated lines plus a
newline-free trailing part recovers the lines and the trailing part. -/
theorem splitNl_assembled :
    ∀ (lines : List (List Char)) (trailing : List Char),
      (∀ l ∈ lines, ('\n' : Char) ∉ l) → ('\n' : Char) ∉ trailing →
      splitNl ((lines.map (fun l => l ++ ['\n'])).flatten ++ trailing) =
        lines ++ [trailing] := by
  intro lines
  induction lines with
  | nil =>
    intro trailing _ ht
    simp [splitNl_of_no_newline trailing ht]
  | cons l ls ih =>
    intro trailing hl ht
    have h1 : ('\n' : Char) ∉ l := hl l (List.mem_cons_self l ls)
    have h2 : ∀ x ∈ ls, ('\n' : Char) ∉ x := fun x hx => hl x (List.mem_cons_of_mem l hx)
    rw [List.map_cons, List.flatten_cons, List.append_assoc, List.append_assoc,
      show (['\n'] : List Char) ++ ((ls.map (fun l => l ++ ['\n'])).flatten ++ trailing) =
        '\n' :: ((ls.map (fun l => l ++ ['\n'])).flatten ++ trailing) from rfl,
      splitNl_line_append l _ h1, ih trailing h2 ht]
    rfl

/-- C6: for any sequence of delivered chunks that reassembles to N
newline-terminated lines plus an optional trailing partial line, the SSE
line reader yields exactly the complete non-blank lines in arrival order
(buffering partial segments across chunk boundaries), then the trailing
content only if it contains non-whitespace; blank lines yield nothing.
Equivalently (first conjunct) the reader equals splitting the whole
delivered text at newlines and discarding blank segments. -/
theorem readSSEStream_yields_complete_nonblank_lines :
    (∀ (chunks : List (List Char)),
      readSSEStream chunks =
        (splitNl chunks.flatten).filter (fun l => !(lineBlank l))) ∧
    (∀ (chunks lines : List (List Char)) (trailing : List Char),
      chunks.flatten = (lines.map (fun l => l ++ ['\n'])).flatten ++ trailing →
      (∀ l ∈ lines, ('\n' : Char) ∉ l) → ('\n' : Char) ∉ trailing →
      readSSEStream chunks =
        lines.filter (fun l => !(lineBlank l)) ++
          (if lineBlank trailing then [] else [trailing])) := by
  have h1 : ∀ (chunks : List (List Char)),
      readSSEStream chunks =
        (splitNl chunks.flatten).filter (fun l => !(lineBlank l)) := by
    intro chunks
    exact readSSEStreamAux_eq chunks [] (by simp)
  refine ⟨h1, ?_⟩
  intro chunks lines trailing hflat hl ht
  rw [h1 chunks, hflat, splitNl_assembled lines trailing hl ht, List.filter_append]
  by_cases hb : lineBlank trailing <;> simp [hb, List.filter]

/-- C6 witness: the theorem applied to a concrete chunk sequence whose
pieces split a line across deliveries and include a blank line. -/
theorem readSSEStream_lines_witness :
    readSSEStream ["da".toList, "ta: x\nlin".toList, "e2\n \ny".toList] =
      ["data: x".toList, "line2".toList, "y".toList] := by
  have h := readSSEStream_yields_complete_nonblank_lines.2
    ["da".toList, "ta: x\nlin".toList, "e2\n \ny".toList]
    ["data: x".toList, "line2".toList, " ".toList] "y".toList
    (by decide) (by decide) (by decide)
  rw [h]
  decide

end ChromeGemini
